import Mathlib

/- Shallow embedding of egui_minipng (src/lib.rs): a PNG image loader for egui
backed by the minipng decoder, with a uri-keyed cache of decode outcomes.
External collaborators (the egui context byte provider and the minipng
decoder) are modelled as oracle functions supplied as parameters; the code
of src/lib.rs itself is translated definition by definition. -/

namespace EguiMinipng

/-! ## String helpers (Rust str::contains) -/

/-- Prefix test on character lists. -/
def startsWithL : List Char → List Char → Bool
  | [], _ => true
  | _ :: _, [] => false
  | a :: as, b :: bs => a = b && startsWithL as bs

/-- Substring containment test: does `pat` occur contiguously in `hay`?
Models Rust str::contains with a literal string pattern. -/
def containsSub (hay pat : List Char) : Bool :=
  match hay with
  | [] => pat.isEmpty
  | _ :: t => startsWithL pat hay || containsSub t pat

/-- Rust str::contains on Lean strings. -/
def strContains (hay pat : String) : Bool :=
  containsSub hay.toList pat.toList

/-! ## Rust std::path model (Unix semantics), as used by is_supported_uri -/

/-- Split a character list on every occurrence of a separator character;
always returns at least one (possibly empty) piece. -/
def splitSep (sep : Char) : List Char → List (List Char)
  | [] => [[]]
  | c :: rest =>
    match splitSep sep rest with
    | [] => [[c]]
    | h :: t => if c = sep then [] :: h :: t else (c :: h) :: t

/-- The components of a path that survive normalization for file_name
purposes: splitting on the separator, empty components and lone-dot
components are dropped (Rust Components normalization). -/
def pathParts (uri : String) : List (List Char) :=
  (splitSep '/' uri.toList).filter (fun s => !(s.isEmpty || s == ['.']))

/-- Rust Path::file_name: the final normalized component when it is a
normal component; none when the path is empty, is a root, or terminates
in a parent-directory component. -/
def rustFileName (uri : String) : Option (List Char) :=
  match (pathParts uri).getLast? with
  | none => none
  | some p => if p = ['.', '.'] then none else some p

/-- Split a character list at its final dot: returns the part before and
the part after the final occurrence of the dot, or none when there is no
dot. -/
def splitLastDot : List Char → Option (List Char × List Char)
  | [] => none
  | c :: rest =>
    match splitLastDot rest with
    | some (b, a) => some (c :: b, a)
    | none => if c = '.' then some ([], rest) else none

/-- Rust Path::extension: the text after the final dot of the file name,
none when there is no file name, the file name has no dot, or the only
text before the final dot is empty (hidden files such as ".png"). -/
def rustExtension (uri : String) : Option String :=
  match rustFileName uri with
  | none => none
  | some name =>
    match splitLastDot name with
    | none => none
    | some ([], _) => none
    | some (_ :: _, a) => some (String.mk a)

/-- Extension extraction exactly as the specification words it: the text
after the final path separator, then the text after the final dot of that
text; no dot means no suffix. Written from the spec for comparison with
the source-derived rustExtension. -/
def specExtension (uri : String) : Option String :=
  let comp := ((splitSep '/' uri.toList).getLast?).getD []
  match splitLastDot comp with
  | none => none
  | some (_, a) => some (String.mk a)

/-! ## src/lib.rs: the two pure predicates -/

/-- fn is_supported_uri (src/lib.rs lines 20-26): the uri is supported iff
Path::new(uri).extension() is exactly "png". -/
def is_supported_uri (uri : String) : Bool :=
  match rustExtension uri with
  | none => false
  | some ext => ext == "png"

/-- fn is_unsupported_mime (src/lib.rs lines 28-30): a mime string is
unsupported iff it does not contain "png" as a substring. -/
def is_unsupported_mime (mime : String) : Bool :=
  !(strContains mime "png")

/-! ## egui types (external), at the granularity the loader uses them -/

/-- egui Color32: four u8 channels. -/
abbrev Color32 := Nat × Nat × Nat × Nat

/-- size_of::<egui::Color32>() in bytes. -/
def size_of_Color32 : Nat := 4

/-- egui ColorImage: a size and a flat row-major pixel vector. -/
structure ColorImage where
  width : Nat
  height : Nat
  pixels : List Color32
deriving DecidableEq

/-- Group a flat rgba byte list into Color32 quadruples, as
ColorImage::from_rgba_unmultiplied does. -/
def toColor32s : List Nat → List Color32
  | r :: g :: b :: a :: rest => (r, g, b, a) :: toColor32s rest
  | _ => []

/-- egui ColorImage::from_rgba_unmultiplied: wrap a flat rgba byte buffer
with its dimensions (the Rust constructor asserts
rgba.len() == 4 * width * height; callers satisfy it). -/
def ColorImage.from_rgba_unmultiplied (size : Nat × Nat) (rgba : List Nat) : ColorImage :=
  ⟨size.1, size.2, toColor32s rgba⟩

/-- egui layout vector, only forwarded by this loader, never computed on. -/
abbrev Vec2 := Int × Int

/-- egui load::SizeHint; the loader ignores it entirely. -/
inductive SizeHint where
  | scale (factor : Nat)
  | width (w : Nat)
  | height (h : Nat)
  | size (w h : Nat)
deriving DecidableEq

/-- egui load::LoadError. -/
inductive LoadError where
  | NotSupported
  | FormatNotSupported (detected_format : Option String)
  | Loading (msg : String)
deriving DecidableEq

/-- egui load::BytesPoll: the byte-provider response. -/
inductive BytesPoll where
  | ready (bytes : List Nat) (mime : Option String) (size : Option Vec2)
  | pending (size : Option Vec2)
deriving DecidableEq

/-- egui load::ImagePoll: the image loader response payload. -/
inductive ImagePoll where
  | pending (size : Option Vec2)
  | ready (image : ColorImage)
deriving DecidableEq

/-- The egui Context, reduced to the one operation the loader calls on it:
try_load_bytes, the byte provider. -/
structure Ctx where
  try_load_bytes : String → Except LoadError BytesPoll

/-! ## minipng (external decoder), as oracle functions -/

/-- minipng ImageHeader, reduced to what the loader reads from it. -/
structure ImageHeader where
  width : Nat
  height : Nat
  required_bytes_rgba8bpc : Nat
deriving DecidableEq

/-- The in-place decoded image minipng produces; pixels is the flat byte
buffer its pixels() accessor exposes. -/
structure DecodedImage where
  width : Nat
  height : Nat
  pixels : List Nat
deriving DecidableEq

/-- The minipng crate as an oracle: header parsing, full decode into a
buffer, and rgba8 conversion. minipng::Error is modelled by its textual
description (the loader only ever stringifies or discards it). -/
structure MiniPng where
  decode_png_header : List Nat → Except String ImageHeader
  decode_png : List Nat → List Nat → Except String DecodedImage
  convert_to_rgba8bpc : DecodedImage → Except String DecodedImage

/-! ## src/lib.rs: cache and loader -/

/-- A cache entry: Result of Arc ColorImage (the Arc indirection is
identity on values) or the error message string. -/
abbrev Entry := Except String ColorImage

/-- The cache HashMap of PngLoader, modelled as an association list with
at most one binding per key (maintained by the operations below). -/
abbrev Cache := List (String × Entry)

/-- HashMap::get. -/
def Cache.get : Cache → String → Option Entry
  | [], _ => none
  | (k, v) :: rest, uri => if k = uri then some v else Cache.get rest uri

/-- HashMap::remove. -/
def Cache.remove (c : Cache) (uri : String) : Cache :=
  c.filter (fun p => !(p.1 == uri))

/-- HashMap::insert: replaces any existing binding for the key. -/
def Cache.insert (c : Cache) (uri : String) (e : Entry) : Cache :=
  (uri, e) :: Cache.remove c uri

/-- HashMap::clear. -/
def Cache.clear (_ : Cache) : Cache := []

/-- HashMap::values. -/
def Cache.values (c : Cache) : List Entry := c.map (fun p => p.2)

/-- fn load_image_bytes (src/lib.rs lines 32-40): allocate a zeroed buffer
of the size the header requires, decode the png into it, convert to
rgba 8 bits per channel, and wrap as a ColorImage. -/
def load_image_bytes (mp : MiniPng) (header : ImageHeader) (bytes : List Nat) :
    Except String ColorImage :=
  let buffer := List.replicate header.required_bytes_rgba8bpc 0
  match mp.decode_png bytes buffer with
  | .error e => .error e
  | .ok image =>
    match mp.convert_to_rgba8bpc image with
    | .error e => .error e
    | .ok image =>
      let size := (image.width, image.height)
      .ok (ColorImage.from_rgba_unmultiplied size image.pixels)

/-- Translate a cache entry into the value PngLoader::load returns for it
(both the cache-hit match and the post-decode match in the source). -/
def entryToResult : Entry → Except LoadError ImagePoll
  | .ok image => .ok (.ready image)
  | .error err => .error (.Loading err)

deriving instance DecidableEq for Except

/-- The full observable effect of one call to PngLoader::load: its return
value, the cache afterwards, and whether the byte provider
(ctx.try_load_bytes) and the minipng decoder were invoked during the call. -/
structure LoadResult where
  result : Except LoadError ImagePoll
  cache : Cache
  providerInvoked : Bool
  decoderInvoked : Bool
deriving DecidableEq

/-- PngLoader::load (src/lib.rs lines 47-80), with the cache state passed
explicitly and invocation flags recorded per source call site. The size
hint argument is bound but unused, exactly as in the source. -/
def PngLoader.load (mp : MiniPng) (ctx : Ctx) (uri : String) (_hint : SizeHint)
    (cache : Cache) : LoadResult :=
  if !is_supported_uri uri then
    ⟨.error .NotSupported, cache, false, false⟩
  else
    match Cache.get cache uri with
    | some entry => ⟨entryToResult entry, cache, false, false⟩
    | none =>
      match ctx.try_load_bytes uri with
      | .ok (.ready bytes mime _) =>
        if (mime.map is_unsupported_mime).getD false then
          ⟨.error .NotSupported, cache, true, false⟩
        else
          match mp.decode_png_header bytes with
          | .error _ => ⟨.error .NotSupported, cache, true, true⟩
          | .ok header =>
            let result := load_image_bytes mp header bytes
            ⟨entryToResult result, Cache.insert cache uri result, true, true⟩
      | .ok (.pending size) => ⟨.ok (.pending size), cache, true, false⟩
      | .error err => ⟨.error err, cache, true, false⟩

/-- PngLoader::forget (src/lib.rs lines 82-84). -/
def PngLoader.forget (cache : Cache) (uri : String) : Cache :=
  Cache.remove cache uri

/-- PngLoader::forget_all (src/lib.rs lines 86-88). -/
def PngLoader.forget_all (cache : Cache) : Cache :=
  Cache.clear cache

/-- The accounted size of one cache entry inside PngLoader::byte_size. -/
def entrySize : Entry → Nat
  | .ok image => image.pixels.length * size_of_Color32
  | .error err => err.utf8ByteSize

/-- PngLoader::byte_size (src/lib.rs lines 90-99): sum the accounted size
over all cache values. -/
def PngLoader.byte_size (cache : Cache) : Nat :=
  ((Cache.values cache).map entrySize).sum

/-- The per-entry accounting exactly as the specification words it: width
times height times 4 for a decoded image, byte length of the message for a
failure. Written from the spec for comparison with entrySize. -/
def specEntrySize : Entry → Nat
  | .ok image => image.width * image.height * 4
  | .error err => err.utf8ByteSize

/-- Well-formedness of a cache entry: a decoded image holds exactly
width times height pixels. Guaranteed for every image the loader caches,
since ColorImage::from_rgba_unmultiplied asserts it of its input buffer. -/
def entryWF : Entry → Bool
  | .ok image => image.pixels.length == image.width * image.height
  | .error _ => true

/-! ## Concrete oracle instances used by witnesses and counterexamples -/

/-- A decoder whose header parsing always fails. -/
def mp0 : MiniPng :=
  ⟨fun _ => .error "bad header", fun _ _ => .error "bad", fun i => .ok i⟩

/-- A decoder that accepts any header but fails the full decode. -/
def mph : MiniPng :=
  ⟨fun _ => .ok ⟨1, 1, 4⟩, fun _ _ => .error "corrupt", fun i => .ok i⟩

/-- A byte provider that always reports bytes not yet available. -/
def ctx0 : Ctx := ⟨fun _ => .ok (.pending none)⟩

/-- A byte provider that returns bytes with a non-png mime type. -/
def ctxm : Ctx := ⟨fun _ => .ok (.ready [] (some "text/plain") none)⟩

/-- A byte provider that returns bytes with no mime type. -/
def ctxb : Ctx := ⟨fun _ => .ok (.ready [1, 2] none none)⟩

/-- A byte provider that always fails outright. -/
def ctxf : Ctx := ⟨fun _ => .error (.Loading "io error")⟩

/-- A concrete size hint. -/
def hint0 : SizeHint := .scale 1

/-- Another concrete size hint. -/
def hint1 : SizeHint := .size 8 8

/-- A concrete well-formed 2 by 1 image. -/
def img0 : ColorImage := ⟨2, 1, [(255, 0, 0, 255), (0, 255, 0, 255)]⟩

/-- A concrete cache with one decoded and one failed entry. -/
def c0 : Cache := [("a.png", .ok img0), ("b.png", .error "bad")]

/-! ## Helper lemmas -/

/-- Unsupported uris short-circuit load before cache and provider. -/
theorem load_unsupported (mp : MiniPng) (ctx : Ctx) (uri : String)
    (hint : SizeHint) (c : Cache) (hu : is_supported_uri uri = false) :
    PngLoader.load mp ctx uri hint c = ⟨.error .NotSupported, c, false, false⟩ := by
  simp [PngLoader.load, hu]

/-- A cache hit is translated and returned with no external call. -/
theorem load_hit (mp : MiniPng) (ctx : Ctx) (uri : String) (hint : SizeHint)
    (c : Cache) (entry : Entry) (hs : is_supported_uri uri = true)
    (hg : Cache.get c uri = some entry) :
    PngLoader.load mp ctx uri hint c = ⟨entryToResult entry, c, false, false⟩ := by
  simp [PngLoader.load, hs, hg]

/-- Inserting then reading the same key yields the inserted entry. -/
theorem cache_get_insert (c : Cache) (uri : String) (e : Entry) :
    Cache.get (Cache.insert c uri e) uri = some e := by
  simp [Cache.insert, Cache.get]

/-- On a miss with bytes ready, an admissible mime and a parsable header,
load decodes, caches the outcome whatever it is, and returns it. -/
theorem load_miss_decode (mp : MiniPng) (ctx : Ctx) (uri : String)
    (hint : SizeHint) (c : Cache) (bytes : List Nat) (mime : Option String)
    (sz : Option Vec2) (hdr : ImageHeader)
    (hs : is_supported_uri uri = true) (hg : Cache.get c uri = none)
    (hb : ctx.try_load_bytes uri = .ok (.ready bytes mime sz))
    (hm : (mime.map is_unsupported_mime).getD false = false)
    (hh : mp.decode_png_header bytes = .ok hdr) :
    PngLoader.load mp ctx uri hint c =
      ⟨entryToResult (load_image_bytes mp hdr bytes),
       Cache.insert c uri (load_image_bytes mp hdr bytes), true, true⟩ := by
  simp [PngLoader.load, hs, hg, hb, hm, hh]

/-- startsWithL decides list-prefix. -/
theorem startsWithL_iff (p l : List Char) :
    startsWithL p l = true ↔ ∃ t, l = p ++ t := by
  induction p generalizing l with
  | nil => simp [startsWithL]
  | cons a as ih =>
    cases l with
    | nil => simp [startsWithL]
    | cons b bs =>
      simp only [startsWithL, Bool.and_eq_true, decide_eq_true_eq, ih,
        List.cons_append, List.cons.injEq]
      constructor
      · rintro ⟨rfl, t, rfl⟩
        exact ⟨t, rfl, rfl⟩
      · rintro ⟨t, rfl, rfl⟩
        exact ⟨rfl, t, rfl⟩

/-- containsSub decides contiguous-substring occurrence. -/
theorem containsSub_iff (hay pat : List Char) :
    containsSub hay pat = true ↔ ∃ pre post, hay = pre ++ (pat ++ post) := by
  induction hay with
  | nil =>
    simp only [containsSub, List.isEmpty_iff]
    constructor
    · rintro rfl
      exact ⟨[], [], rfl⟩
    · rintro ⟨pre, post, h⟩
      rcases List.append_eq_nil.mp h.symm with ⟨rfl, h2⟩
      exact (List.append_eq_nil.mp h2).1
  | cons c t ih =>
    simp only [containsSub, Bool.or_eq_true, startsWithL_iff, ih]
    constructor
    · rintro (⟨s, hs⟩ | ⟨pre, post, rfl⟩)
      · exact ⟨[], s, by simpa using hs⟩
      · exact ⟨c :: pre, post, rfl⟩
    · rintro ⟨pre, post, h⟩
      cases pre with
      | nil =>
        left
        exact ⟨post, by simpa using h⟩
      | cons x xs =>
        right
        rcases List.cons.injEq .. ▸ h with ⟨rfl, h2⟩
        exact ⟨xs, post, h2⟩

/-- If a character list holds no dot, splitLastDot finds none. -/
theorem splitLastDot_eq_none (l : List Char) (h : ('.' : Char) ∉ l) :
    splitLastDot l = none := by
  induction l with
  | nil => rfl
  | cons c rest ih =>
    simp only [List.mem_cons, not_or] at h
    have hc : c ≠ '.' := fun hc => h.1 hc.symm
    simp [splitLastDot, ih h.2, hc]

/-- Unfolding lemma for Cache.remove on a cons cell. -/
theorem cache_remove_cons (p : String × Entry) (rest : Cache) (uri : String) :
    Cache.remove (p :: rest) uri =
      if p.1 = uri then Cache.remove rest uri else p :: Cache.remove rest uri := by
  by_cases h : p.1 = uri <;> simp [Cache.remove, List.filter_cons, h]

/-- Removing a key that is absent leaves the cache unchanged. -/
theorem cache_remove_not_mem (c : Cache) (uri : String)
    (h : uri ∉ c.map Prod.fst) : Cache.remove c uri = c := by
  induction c with
  | nil => rfl
  | cons p rest ih =>
    simp only [List.map_cons, List.mem_cons, not_or] at h
    rw [cache_remove_cons, if_neg (fun e => h.1 e.symm), ih h.2]

/-- After removal, the removed key reads as absent. -/
theorem cache_get_remove_self (c : Cache) (uri : String) :
    Cache.get (Cache.remove c uri) uri = none := by
  induction c with
  | nil => rfl
  | cons p rest ih =>
    rw [cache_remove_cons]
    by_cases h : p.1 = uri
    · simpa [h] using ih
    · simpa [Cache.get, h] using ih

/-- Removal does not touch the bindings of other keys. -/
theorem cache_get_remove_ne (c : Cache) (uri k : String) (hk : k ≠ uri) :
    Cache.get (Cache.remove c uri) k = Cache.get c k := by
  induction c with
  | nil => rfl
  | cons p rest ih =>
    rw [cache_remove_cons]
    by_cases h : p.1 = uri
    · have hpk : p.1 ≠ k := by
        rw [h]
        exact fun e => hk e.symm
      rw [if_pos h, ih]
      simp [Cache.get, hpk]
    · rw [if_neg h]
      by_cases hpk : p.1 = k
      · simp [Cache.get, hpk]
      · simp [Cache.get, hpk, ih]

/-- A key that reads as absent is not among the cache keys. -/
theorem cache_not_mem_of_get_none (c : Cache) (uri : String)
    (h : Cache.get c uri = none) : uri ∉ c.map Prod.fst := by
  induction c with
  | nil => simp
  | cons p rest ih =>
    by_cases hp : p.1 = uri
    · simp [Cache.get, hp] at h
    · simp only [Cache.get, hp, if_false] at h
      simp only [List.map_cons, List.mem_cons, not_or]
      exact ⟨fun e => hp e.symm, ih h⟩

/-- byte_size of a cons is the accounted head size plus the rest. -/
theorem byte_size_cons (p : String × Entry) (rest : Cache) :
    PngLoader.byte_size (p :: rest) = entrySize p.2 + PngLoader.byte_size rest := by
  simp [PngLoader.byte_size, Cache.values]

/-- Under distinct keys, removing a present entry lowers byte_size by
exactly its accounted size. -/
theorem byte_size_remove (c : Cache) (uri : String) (e : Entry)
    (hnd : (c.map Prod.fst).Nodup) (hg : Cache.get c uri = some e) :
    PngLoader.byte_size c = PngLoader.byte_size (Cache.remove c uri) + entrySize e := by
  induction c with
  | nil => simp [Cache.get] at hg
  | cons p rest ih =>
    rcases p with ⟨k, v⟩
    simp only [List.map_cons, List.nodup_cons] at hnd
    obtain ⟨hknotin, hndrest⟩ := hnd
    by_cases h : k = uri
    · subst h
      simp [Cache.get] at hg
      subst hg
      rw [byte_size_cons, cache_remove_cons, if_pos rfl,
        cache_remove_not_mem rest k hknotin]
      exact Nat.add_comm _ _
    · simp only [Cache.get, if_neg h] at hg
      rw [byte_size_cons, cache_remove_cons, if_neg h, byte_size_cons,
        ih hndrest hg]
      omega

/-- On a miss, whatever the provider answers, it was invoked. -/
theorem load_miss_provider (mp : MiniPng) (ctx : Ctx) (uri : String)
    (hint : SizeHint) (c : Cache)
    (hs : is_supported_uri uri = true) (hg : Cache.get c uri = none) :
    (PngLoader.load mp ctx uri hint c).providerInvoked = true := by
  rcases hb : ctx.try_load_bytes uri with err | poll
  · simp [PngLoader.load, hs, hg, hb]
  · rcases poll with ⟨bytes, mime, sz⟩ | sz
    · by_cases hm : (mime.map is_unsupported_mime).getD false = true
      · simp [PngLoader.load, hs, hg, hb, hm]
      · rcases hh : mp.decode_png_header bytes with e | hdr <;>
          simp [PngLoader.load, hs, hg, hb, hm, hh]
    · simp [PngLoader.load, hs, hg, hb]

/-! ## Claims -/

/-- C1 counterexample: for the identifier ".png" the text after the final
path separator and then after the final dot is exactly "png", yet the
loader declines with NotSupported, refuting the claim as stated. -/
theorem C1_counterexample :
    specExtension ".png" = some "png" ∧ is_supported_uri ".png" = false ∧
    PngLoader.load mp0 ctx0 ".png" hint0 [] =
      ⟨.error .NotSupported, [], false, false⟩ :=
  ⟨by decide, by decide, by decide⟩

/-- C1 (amended): the loader claims responsibility iff the platform path
extension of the identifier equals "png", where the extension belongs to
the final normalized path component and a component whose only dot is its
leading character has none; when it does not claim responsibility, load
returns NotSupported without consulting the cache and without invoking
the byte provider. -/
theorem C1_extension_routing (uri : String) :
    (is_supported_uri uri = true ↔ rustExtension uri = some "png") ∧
    (∀ mp ctx hint c, is_supported_uri uri = false →
      PngLoader.load mp ctx uri hint c = ⟨.error .NotSupported, c, false, false⟩) := by
  constructor
  · cases h : rustExtension uri <;> simp [is_supported_uri, h]
  · intro mp ctx hint c hu
    exact load_unsupported mp ctx uri hint c hu

/-- C1 witness: the amended theorem applied at a concrete non-png uri. -/
theorem C1_witness :
    is_supported_uri "a.txt" = false ∧
    PngLoader.load mp0 ctx0 "a.txt" hint0 [] =
      ⟨.error .NotSupported, [], false, false⟩ :=
  ⟨by decide, (C1_extension_routing "a.txt").2 mp0 ctx0 hint0 [] (by decide)⟩

/-- C2 counterexample: with bytes fully available but a mime type lacking
"png", two consecutive load calls return identical outcomes yet each one
invokes the byte provider, refuting the at-most-once clause of the claim
as stated. -/
theorem C2_counterexample :
    ctxm.try_load_bytes "a.png" = .ok (.ready [] (some "text/plain") none) ∧
    (PngLoader.load mp0 ctxm "a.png" hint0 []).result =
      (PngLoader.load mp0 ctxm "a.png" hint0
        (PngLoader.load mp0 ctxm "a.png" hint0 []).cache).result ∧
    ¬((PngLoader.load mp0 ctxm "a.png" hint0 []).providerInvoked.toNat +
      (PngLoader.load mp0 ctxm "a.png" hint0
        (PngLoader.load mp0 ctxm "a.png" hint0 []).cache).providerInvoked.toNat ≤ 1) :=
  ⟨rfl, by decide, by decide⟩

/-- C2 (amended): a cache hit on a supported identifier returns the
stored outcome translated directly with neither the byte provider nor the
decoder invoked; and when bytes are fully available, the reported mime
type admits png and the header parses, two consecutive load calls yield
identical outcomes with the byte provider invoked at most once across
both calls. -/
theorem C2_cache_hit_idempotent :
    (∀ mp ctx uri hint c entry, is_supported_uri uri = true →
      Cache.get c uri = some entry →
      PngLoader.load mp ctx uri hint c = ⟨entryToResult entry, c, false, false⟩) ∧
    (∀ mp ctx uri h1 h2 c bytes mime sz hdr,
      is_supported_uri uri = true →
      ctx.try_load_bytes uri = .ok (.ready bytes mime sz) →
      (mime.map is_unsupported_mime).getD false = false →
      mp.decode_png_header bytes = .ok hdr →
      (PngLoader.load mp ctx uri h1 c).result =
        (PngLoader.load mp ctx uri h2 (PngLoader.load mp ctx uri h1 c).cache).result ∧
      (PngLoader.load mp ctx uri h1 c).providerInvoked.toNat +
        (PngLoader.load mp ctx uri h2
          (PngLoader.load mp ctx uri h1 c).cache).providerInvoked.toNat ≤ 1) := by
  constructor
  · intro mp ctx uri hint c entry hs hg
    exact load_hit mp ctx uri hint c entry hs hg
  · intro mp ctx uri h1 h2 c bytes mime sz hdr hs hb hm hh
    rcases hg : Cache.get c uri with _ | entry
    · rw [load_miss_decode mp ctx uri h1 c bytes mime sz hdr hs hg hb hm hh]
      rw [show (⟨entryToResult (load_image_bytes mp hdr bytes),
          Cache.insert c uri (load_image_bytes mp hdr bytes), true, true⟩ :
          LoadResult).cache = Cache.insert c uri (load_image_bytes mp hdr bytes) from rfl]
      rw [load_hit mp ctx uri h2 _ _ hs (cache_get_insert c uri (load_image_bytes mp hdr bytes))]
      exact ⟨rfl, by simp⟩
    · rw [load_hit mp ctx uri h1 c entry hs hg]
      rw [show (⟨entryToResult entry, c, false, false⟩ : LoadResult).cache = c from rfl]
      rw [load_hit mp ctx uri h2 c entry hs hg]
      exact ⟨rfl, by simp⟩

/-- C2 witness: the amended theorem at a concrete decode-failure run. -/
theorem C2_witness :
    (PngLoader.load mph ctxb "a.png" hint0 []).result =
      (PngLoader.load mph ctxb "a.png" hint1
        (PngLoader.load mph ctxb "a.png" hint0 []).cache).result ∧
    (PngLoader.load mph ctxb "a.png" hint0 []).providerInvoked.toNat +
      (PngLoader.load mph ctxb "a.png" hint1
        (PngLoader.load mph ctxb "a.png" hint0 []).cache).providerInvoked.toNat ≤ 1 :=
  C2_cache_hit_idempotent.2 mph ctxb "a.png" hint0 hint1 [] [1, 2] none none
    ⟨1, 1, 4⟩ (by decide) rfl rfl rfl

/-- C3: when bytes are ready, the mime check passes, the header parses,
and the full decode or normalization fails with message msg, load caches
the Failed outcome and returns it; a second request returns the identical
message with neither the provider nor the decoder invoked again. -/
theorem C3_decode_failure_cached (mp : MiniPng) (ctx : Ctx) (uri : String)
    (hint hint2 : SizeHint) (c : Cache) (bytes : List Nat)
    (mime : Option String) (sz : Option Vec2) (hdr : ImageHeader) (msg : String)
    (hs : is_supported_uri uri = true) (hg : Cache.get c uri = none)
    (hb : ctx.try_load_bytes uri = .ok (.ready bytes mime sz))
    (hm : (mime.map is_unsupported_mime).getD false = false)
    (hh : mp.decode_png_header bytes = .ok hdr)
    (hd : load_image_bytes mp hdr bytes = .error msg) :
    PngLoader.load mp ctx uri hint c =
      ⟨.error (.Loading msg), Cache.insert c uri (.error msg), true, true⟩ ∧
    PngLoader.load mp ctx uri hint2 (Cache.insert c uri (.error msg)) =
      ⟨.error (.Loading msg), Cache.insert c uri (.error msg), false, false⟩ := by
  constructor
  · rw [load_miss_decode mp ctx uri hint c bytes mime sz hdr hs hg hb hm hh, hd]
    rfl
  · rw [load_hit mp ctx uri hint2 _ (.error msg) hs (cache_get_insert c uri (.error msg))]
    rfl

/-- C3 witness: the theorem at a concrete corrupt-body run. -/
theorem C3_witness :
    PngLoader.load mph ctxb "a.png" hint0 [] =
      ⟨.error (.Loading "corrupt"),
       Cache.insert [] "a.png" (.error "corrupt"), true, true⟩ ∧
    PngLoader.load mph ctxb "a.png" hint1 (Cache.insert [] "a.png" (.error "corrupt")) =
      ⟨.error (.Loading "corrupt"),
       Cache.insert [] "a.png" (.error "corrupt"), false, false⟩ :=
  C3_decode_failure_cached mph ctxb "a.png" hint0 hint1 [] [1, 2] none none
    ⟨1, 1, 4⟩ "corrupt" (by decide) rfl rfl rfl rfl rfl

/-- C4: on a cache miss of a supported identifier, a pending byte provider
answer is forwarded as Pending with the provider size hint and the cache
is untouched, and an outright provider failure is propagated untouched
with the cache untouched. -/
theorem C4_pending_and_failure_uncached (mp : MiniPng) (ctx : Ctx)
    (uri : String) (hint : SizeHint) (c : Cache)
    (hs : is_supported_uri uri = true) (hg : Cache.get c uri = none) :
    (∀ sz, ctx.try_load_bytes uri = .ok (.pending sz) →
      PngLoader.load mp ctx uri hint c = ⟨.ok (.pending sz), c, true, false⟩) ∧
    (∀ err, ctx.try_load_bytes uri = .error err →
      PngLoader.load mp ctx uri hint c = ⟨.error err, c, true, false⟩) := by
  constructor
  · intro sz hb
    simp [PngLoader.load, hs, hg, hb]
  · intro err hb
    simp [PngLoader.load, hs, hg, hb]

/-- C4 witness: the theorem at a concrete pending provider. -/
theorem C4_witness :
    PngLoader.load mp0 ctx0 "a.png" hint0 [] =
      ⟨.ok (.pending none), [], true, false⟩ :=
  (C4_pending_and_failure_uncached mp0 ctx0 "a.png" hint0 [] (by decide) rfl).1 none rfl

/-- C5: when bytes are ready, a reported mime type lacking "png" or a
header parse failure makes load return NotSupported with nothing inserted
into the cache. -/
theorem C5_mime_header_rejection (mp : MiniPng) (ctx : Ctx) (uri : String)
    (hint : SizeHint) (c : Cache) (bytes : List Nat) (mime : Option String)
    (sz : Option Vec2)
    (hs : is_supported_uri uri = true) (hg : Cache.get c uri = none)
    (hb : ctx.try_load_bytes uri = .ok (.ready bytes mime sz)) :
    ((mime.map is_unsupported_mime).getD false = true →
      PngLoader.load mp ctx uri hint c = ⟨.error .NotSupported, c, true, false⟩) ∧
    (∀ e, (mime.map is_unsupported_mime).getD false = false →
      mp.decode_png_header bytes = .error e →
      PngLoader.load mp ctx uri hint c = ⟨.error .NotSupported, c, true, true⟩) := by
  constructor
  · intro hm
    simp [PngLoader.load, hs, hg, hb, hm]
  · intro e hm hh
    simp [PngLoader.load, hs, hg, hb, hm, hh]

/-- C5 witness: the theorem at a concrete mismatching mime type. -/
theorem C5_witness :
    PngLoader.load mp0 ctxm "a.png" hint0 [] =
      ⟨.error .NotSupported, [], true, false⟩ :=
  (C5_mime_header_rejection mp0 ctxm "a.png" hint0 [] [] (some "text/plain") none
    (by decide) rfl rfl).1 (by decide)

/-- C6: byte_size equals the sum over entries of width times height times
four bytes for decoded images and the message byte length for failures,
for every cache whose decoded entries are well formed, as every image the
loader caches is. -/
theorem C6_byte_size_accounting (c : Cache)
    (hwf : ∀ e ∈ Cache.values c, entryWF e = true) :
    PngLoader.byte_size c = ((Cache.values c).map specEntrySize).sum := by
  unfold PngLoader.byte_size
  congr 1
  refine List.map_congr_left ?_
  intro e he
  have h := hwf e he
  cases e with
  | ok image =>
    simp only [entryWF, beq_iff_eq] at h
    simp [entrySize, specEntrySize, size_of_Color32, h]
  | error err => rfl

/-- C6 witness: accounting at a concrete two-entry cache. -/
theorem C6_witness :
    PngLoader.byte_size c0 = ((Cache.values c0).map specEntrySize).sum :=
  C6_byte_size_accounting c0 (by decide)

/-- C7: forget removes exactly the entry of the given identifier, is a
no-op when the identifier is absent, lowers byte_size by exactly that
accounted entry size, and makes the next load for it a miss that
re-invokes the byte provider; forget_all empties the store and byte_size
becomes zero. Stated for caches with pairwise distinct keys, which every
reachable cache has. -/
theorem C7_forget_eviction (c : Cache) (uri : String)
    (hnd : (c.map Prod.fst).Nodup) :
    (∀ k, k ≠ uri → Cache.get (PngLoader.forget c uri) k = Cache.get c k) ∧
    Cache.get (PngLoader.forget c uri) uri = none ∧
    (∀ e, Cache.get c uri = some e →
      PngLoader.byte_size c =
        PngLoader.byte_size (PngLoader.forget c uri) + entrySize e) ∧
    (Cache.get c uri = none → PngLoader.forget c uri = c) ∧
    (∀ mp ctx hint, is_supported_uri uri = true →
      (PngLoader.load mp ctx uri hint (PngLoader.forget c uri)).providerInvoked = true) ∧
    (∀ c2 : Cache, PngLoader.forget_all c2 = [] ∧
      PngLoader.byte_size (PngLoader.forget_all c2) = 0) := by
  refine ⟨?_, ?_, ?_, ?_, ?_, ?_⟩
  · intro k hk
    exact cache_get_remove_ne c uri k hk
  · exact cache_get_remove_self c uri
  · intro e hg
    exact byte_size_remove c uri e hnd hg
  · intro hg
    exact cache_remove_not_mem c uri (cache_not_mem_of_get_none c uri hg)
  · intro mp ctx hint hs
    exact load_miss_provider mp ctx uri hint _ hs (cache_get_remove_self c uri)
  · intro c2
    exact ⟨rfl, rfl⟩

/-- C7 witness: eviction at a concrete two-entry cache. -/
theorem C7_witness :
    Cache.get (PngLoader.forget c0 "a.png") "a.png" = none ∧
    PngLoader.byte_size c0 =
      PngLoader.byte_size (PngLoader.forget c0 "a.png") + entrySize (.ok img0) ∧
    (PngLoader.load mp0 ctx0 "a.png" hint0
      (PngLoader.forget c0 "a.png")).providerInvoked = true :=
  ⟨(C7_forget_eviction c0 "a.png" (by decide)).2.1,
   (C7_forget_eviction c0 "a.png" (by decide)).2.2.1 (.ok img0) (by decide),
   (C7_forget_eviction c0 "a.png" (by decide)).2.2.2.2.1 mp0 ctx0 hint0 (by decide)⟩

/-- C8: an identifier whose final path component (the platform file name)
begins with a dot and holds no other dot has no extension, so load
returns NotSupported directly, even when the text after its final dot is
"png". -/
theorem C8_hidden_file_not_supported (uri : String) (rest : List Char)
    (hn : rustFileName uri = some ('.' :: rest)) (hd : ('.' : Char) ∉ rest) :
    is_supported_uri uri = false ∧
    ∀ mp ctx hint c, PngLoader.load mp ctx uri hint c =
      ⟨.error .NotSupported, c, false, false⟩ := by
  have hsplit : splitLastDot ('.' :: rest) = some ([], rest) := by
    simp [splitLastDot, splitLastDot_eq_none rest hd]
  have hsup : is_supported_uri uri = false := by
    simp [is_supported_uri, rustExtension, hn, hsplit]
  exact ⟨hsup, fun mp ctx hint c => load_unsupported mp ctx uri hint c hsup⟩

/-- C8 witness: the identifier ".png" is declined outright. -/
theorem C8_witness :
    is_supported_uri ".png" = false ∧
    PngLoader.load mph ctxb ".png" hint0 [] =
      ⟨.error .NotSupported, [], false, false⟩ :=
  ⟨(C8_hidden_file_not_supported ".png" ['p', 'n', 'g'] (by decide) (by decide)).1,
   (C8_hidden_file_not_supported ".png" ['p', 'n', 'g'] (by decide) (by decide)).2
     mph ctxb hint0 []⟩

/-- C9: the mime cross-check is substring containment of "png", and an
absent mime type skips the check: a reported mime containing "png"
proceeds to header parsing, one not containing it is rejected
NotSupported, and no reported mime proceeds to header parsing. -/
theorem C9_mime_substring_containment :
    (∀ m : String, is_unsupported_mime m = false ↔
      ∃ pre post, m.toList = pre ++ ("png".toList ++ post)) ∧
    (∀ mp ctx uri hint c bytes m sz, is_supported_uri uri = true →
      Cache.get c uri = none →
      ctx.try_load_bytes uri = .ok (.ready bytes (some m) sz) →
      (is_unsupported_mime m = true →
        PngLoader.load mp ctx uri hint c = ⟨.error .NotSupported, c, true, false⟩) ∧
      (is_unsupported_mime m = false →
        (PngLoader.load mp ctx uri hint c).decoderInvoked = true)) ∧
    (∀ mp ctx uri hint c bytes sz, is_supported_uri uri = true →
      Cache.get c uri = none →
      ctx.try_load_bytes uri = .ok (.ready bytes none sz) →
      (PngLoader.load mp ctx uri hint c).decoderInvoked = true) := by
  refine ⟨?_, ?_, ?_⟩
  · intro m
    rw [is_unsupported_mime, Bool.not_eq_false']
    exact containsSub_iff m.toList ("png".toList)
  · intro mp ctx uri hint c bytes m sz hs hg hb
    constructor
    · intro hm
      simp [PngLoader.load, hs, hg, hb, hm]
    · intro hm
      rcases hh : mp.decode_png_header bytes with e | hdr <;>
        simp [PngLoader.load, hs, hg, hb, hm, hh]
  · intro mp ctx uri hint c bytes sz hs hg hb
    rcases hh : mp.decode_png_header bytes with e | hdr <;>
      simp [PngLoader.load, hs, hg, hb, hh]

/-- C9 witness: concrete mime strings on both sides of the check. -/
theorem C9_witness :
    (∃ pre post, ("image/png").toList = pre ++ ("png".toList ++ post)) ∧
    PngLoader.load mp0 ctxm "b.png" hint0 [] =
      ⟨.error .NotSupported, [], true, false⟩ :=
  ⟨(C9_mime_substring_containment.1 "image/png").mp (by decide),
   (C9_mime_substring_containment.2.1 mp0 ctxm "b.png" hint0 [] [] "text/plain" none
      (by decide) rfl rfl).1 (by decide)⟩

/-- C10: the size hint argument never influences the outcome, the cache
effect, or the invocation pattern of load; the size in a Pending answer
comes only from the byte provider. -/
theorem C10_size_hint_irrelevant (mp : MiniPng) (ctx : Ctx) (uri : String)
    (c : Cache) (h1 h2 : SizeHint) :
    PngLoader.load mp ctx uri h1 c = PngLoader.load mp ctx uri h2 c := rfl

end EguiMinipng
